import Mathlib

/-!
Verification of the `lom-vie-translate` batch-translation pipeline.

This development shallowly embeds the pure/observable core of the Python
sources (`src/translator.py`, `src/file_processor.py`, `src/glossary.py`,
`src/main.py`, `src/utils.py`) and proves or refutes the specified
properties of the resilient translate operation, the per-file entry
scheduler, the glossary/cache resolver and the producer/consumer pipeline.
-/

namespace LomVie

/-! ## Python `dict` model

Glossary and cache maps in the source are Python `dict`s built by repeated
assignment.  We model a `dict` as an insertion-ordered association list with
unique keys: assignment (`d[k] = v`) replaces the value in place when the
key is present and appends otherwise, exactly Python's semantics. -/

abbrev Dict := List (String × String)

/-- Python `d.get(k)`: value of the first (hence, keys being unique, the only)
binding of `k`. -/
def dget (d : Dict) (k : String) : Option String :=
  match d with
  | [] => none
  | p :: rest => if p.1 = k then some p.2 else dget rest k

/-- Python `d[k] = v`: Python dict assignment — overwrite in place if the key is
bound, append otherwise. -/
def dset (d : Dict) (k v : String) : Dict :=
  match d with
  | [] => [(k, v)]
  | p :: rest => if p.1 = k then (k, v) :: rest else p :: dset rest k v

theorem dget_dset_self (d : Dict) (k v : String) :
    dget (dset d k v) k = some v := by
  induction d with
  | nil => simp [dget, dset]
  | cons p rest ih =>
    by_cases h : p.1 = k
    · simp [dget, dset, h]
    · simp [dget, dset, h, ih]

theorem dget_dset_ne (d : Dict) (k k' v : String) (h : k ≠ k') :
    dget (dset d k v) k' = dget d k' := by
  induction d with
  | nil => simp [dget, dset, h]
  | cons p rest ih =>
    by_cases hp : p.1 = k
    · simp [dget, dset, hp, h]
    · simp only [dset, if_neg hp, dget]
      by_cases hp' : p.1 = k'
      · simp [hp']
      · simp [hp', ih]

theorem dget_some_ne_nil {d : Dict} {k v : String} (h : dget d k = some v) :
    d ≠ [] := by
  intro hnil; subst hnil; simp [dget] at h

/-! ## Python string primitives

Executable models of the Python string operations the sources use
(`str.strip`, `in`, `str.split(sep, 1)`, `str.replace`), written by
structural recursion over the character list so that closed instances
evaluate inside the kernel. -/

/-- Python's whitespace set for `str.strip()` (ASCII part). -/
def pyWS (c : Char) : Bool :=
  c == ' ' || c == '\t' || c == '\n' || c == '\r' || c == '\x0b' || c == '\x0c'

/-- Python `str.strip()` on a character list. -/
def stripList (l : List Char) : List Char :=
  ((l.dropWhile pyWS).reverse.dropWhile pyWS).reverse

/-- Python `str.strip()`. -/
def pyStrip (s : String) : String := ⟨stripList s.data⟩

/-- Python `line.split(sep, 1)` for a one-character separator: `none` when the
separator does not occur (Python `sep in line` is false), otherwise the
characters before and after its first occurrence. -/
def splitOnceChar (sep : Char) : List Char → Option (List Char × List Char)
  | [] => none
  | c :: rest =>
    if c = sep then some ([], rest)
    else match splitOnceChar sep rest with
      | some (a, b) => some (c :: a, b)
      | none => none

/-- Fuel-indexed worker for `str.replace`: scans left to right replacing
non-overlapping occurrences; the fuel (initialised to the list length)
only makes the recursion structural and never runs out. -/
def replaceAux (pat sub : List Char) : Nat → List Char → List Char
  | _, [] => []
  | 0, l => l
  | n + 1, c :: rest =>
    if pat.isPrefixOf (c :: rest) then
      sub ++ replaceAux pat sub n ((c :: rest).drop pat.length)
    else
      c :: replaceAux pat sub n rest

/-- Python `s.replace(pat, sub)` (for the non-empty patterns the source uses). -/
def pyReplace (s pat sub : String) : String :=
  if pat.data.isEmpty then s
  else ⟨replaceAux pat.data sub.data s.data.length s.data⟩

/-! ## Glossary build (`src/glossary.py`, `load_glossary_async`)

The source parses (a) JSON term lists whose items carry `Name`, `Original`
and `Translated` fields and (b) `.txt` files of `source=translated` lines,
folding every item into two dicts `name_to_translated` and
`original_to_translated` by plain dict assignment. -/

/-- One structured term-list item: the values of `entry.get("Name", "")`,
`entry.get("Original", "")` and `entry.get("Translated", "")` before
stripping. -/
structure TermEntry where
  name : String
  original : String
  translated : String
deriving DecidableEq, Repr

/-- The two glossary maps built by `load_glossary_async`. -/
structure GlossMaps where
  name_to_translated : Dict
  original_to_translated : Dict
deriving DecidableEq, Repr

def emptyGloss : GlossMaps := ⟨[], []⟩

/-- Folding one JSON term-list item into the maps (`load_glossary_async`,
JSON-list branch): strip the three fields, then
`if name and translated: name_to_translated[name] = translated` and
`if original and translated: original_to_translated[original] = translated`. -/
def applyJsonEntry (m : GlossMaps) (e : TermEntry) : GlossMaps :=
  let name := (pyStrip e.name)
  let original := (pyStrip e.original)
  let translated := (pyStrip e.translated)
  let m1 :=
    if name ≠ "" ∧ translated ≠ "" then
      { m with name_to_translated := dset m.name_to_translated name translated }
    else m
  if original ≠ "" ∧ translated ≠ "" then
    { m1 with original_to_translated := dset m1.original_to_translated original translated }
  else m1

/-- Folding one line of a `.txt` glossary file (`load_glossary_async`, txt
branch): `if "=" in line`, split at the first `=`, strip both halves, and
when both are non-empty assign into both maps. -/
def applyTxtLine (m : GlossMaps) (line : String) : GlossMaps :=
  match splitOnceChar '=' line.data with
  | none => m
  | some (a, b) =>
    let original : String := ⟨stripList a⟩
    let translated : String := ⟨stripList b⟩
    if original ≠ "" ∧ translated ≠ "" then
      { name_to_translated := dset m.name_to_translated original translated,
        original_to_translated := dset m.original_to_translated original translated }
    else m

/-- Function `load_glossary_async` over a JSON term list. -/
def loadGlossaryJson (entries : List TermEntry) : GlossMaps :=
  entries.foldl applyJsonEntry emptyGloss

/-- Function `load_glossary_async` over the lines of a `.txt` glossary file. -/
def loadGlossaryTxt (lines : List String) : GlossMaps :=
  lines.foldl applyTxtLine emptyGloss

/-- A txt line binds key `k` (in both maps) when it contains `=`, its
stripped left half is `k ≠ ""` and its stripped right half is non-empty. -/
def txtBinds (line k : String) : Prop :=
  ∃ a b, splitOnceChar '=' line.data = some (a, b) ∧
    (⟨stripList a⟩ : String) = k ∧ k ≠ "" ∧ (⟨stripList b⟩ : String) ≠ ""

/-- The value a txt line assigns: its stripped right half. -/
def txtVal (line : String) : String :=
  match splitOnceChar '=' line.data with
  | some (_, b) => ⟨stripList b⟩
  | none => ""

theorem dget_applyTxtLine_binds {line k : String} (m : GlossMaps)
    (h : txtBinds line k) :
    dget (applyTxtLine m line).original_to_translated k = some (txtVal line) ∧
    dget (applyTxtLine m line).name_to_translated k = some (txtVal line) := by
  obtain ⟨a, b, hs, hk, hk0, hv⟩ := h
  subst hk
  simp only [applyTxtLine, txtVal, hs]
  rw [if_pos ⟨hk0, hv⟩]
  exact ⟨dget_dset_self _ _ _, dget_dset_self _ _ _⟩

theorem dget_applyTxtLine_not_binds {line k : String} (m : GlossMaps)
    (h : ¬ txtBinds line k) :
    dget (applyTxtLine m line).original_to_translated k =
      dget m.original_to_translated k ∧
    dget (applyTxtLine m line).name_to_translated k =
      dget m.name_to_translated k := by
  cases hs : splitOnceChar '=' line.data with
  | none => simp [applyTxtLine, hs]
  | some ab =>
    obtain ⟨a, b⟩ := ab
    simp only [applyTxtLine, hs]
    by_cases hb : (⟨stripList a⟩ : String) ≠ "" ∧ (⟨stripList b⟩ : String) ≠ ""
    · have hk : (⟨stripList a⟩ : String) ≠ k := by
        intro he
        exact h ⟨a, b, hs, he, he ▸ hb.1, hb.2⟩
      rw [if_pos hb]
      exact ⟨dget_dset_ne _ _ _ _ hk, dget_dset_ne _ _ _ _ hk⟩
    · rw [if_neg hb]
      exact ⟨rfl, rfl⟩

theorem dget_foldl_txt_not_binds {k : String} (lines : List String)
    (h : ∀ l ∈ lines, ¬ txtBinds l k) (m : GlossMaps) :
    dget (lines.foldl applyTxtLine m).original_to_translated k =
      dget m.original_to_translated k ∧
    dget (lines.foldl applyTxtLine m).name_to_translated k =
      dget m.name_to_translated k := by
  induction lines generalizing m with
  | nil => exact ⟨rfl, rfl⟩
  | cons l rest ih =>
    have h1 := dget_applyTxtLine_not_binds m (h l (by simp))
    have h2 := ih (fun l' hl' => h l' (by simp [hl'])) (applyTxtLine m l)
    exact ⟨h2.1.trans h1.1, h2.2.trans h1.2⟩

/-- One glossary input item in processing order: either a JSON term-list
entry or a line of a delimited `.txt` file. -/
inductive GlossItem where
  | jsonE (e : TermEntry)
  | txtL (line : String)
deriving DecidableEq, Repr

/-- Folding one glossary item (the body of the per-entry / per-line loops of
`load_glossary_async`). -/
def applyItem (m : GlossMaps) : GlossItem → GlossMaps
  | .jsonE e => applyJsonEntry m e
  | .txtL l => applyTxtLine m l

/-- Function `load_glossary_async` over the flattened sequence of items of all
processed files, in file order. -/
def loadGlossaryItems (items : List GlossItem) : GlossMaps :=
  items.foldl applyItem emptyGloss

/-- One glossary source file, as `load_glossary_async` sees it. -/
inductive GlossFile where
  | json (entries : List TermEntry)
  | txt (lines : List String)

/-- The items a file contributes, in order. -/
def fileItems : GlossFile → List GlossItem
  | .json es => es.map .jsonE
  | .txt ls => ls.map .txtL

/-- Function `load_glossary_async` over the whole file list: each file's entries or
lines are folded into the two shared maps. -/
def loadGlossaryFiles (files : List GlossFile) : GlossMaps :=
  files.foldl
    (fun m f =>
      match f with
      | .json es => es.foldl applyJsonEntry m
      | .txt ls => ls.foldl applyTxtLine m)
    emptyGloss

/-- Processing file-by-file equals processing the flattened item sequence. -/
theorem loadGlossaryFiles_eq_items (files : List GlossFile) :
    loadGlossaryFiles files = loadGlossaryItems ((files.map fileItems).flatten) := by
  suffices h : ∀ (fs : List GlossFile) (m : GlossMaps),
      fs.foldl
        (fun m f =>
          match f with
          | .json es => es.foldl applyJsonEntry m
          | .txt ls => ls.foldl applyTxtLine m) m =
      ((fs.map fileItems).flatten).foldl applyItem m by
    exact h files emptyGloss
  intro fs
  induction fs with
  | nil => intro m; rfl
  | cons f rest ih =>
    intro m
    simp only [List.map_cons, List.flatten_cons, List.foldl_append, List.foldl_cons, ih]
    congr 1
    cases f with
    | json es => simp [fileItems, List.foldl_map, applyItem]
    | txt ls => simp [fileItems, List.foldl_map, applyItem]

/-- An item binds key `k` in the source-text-keyed map
(`original_to_translated`). -/
def itemBindsOrig : GlossItem → String → Prop
  | .jsonE e, k => (pyStrip e.original) = k ∧ k ≠ "" ∧ (pyStrip e.translated) ≠ ""
  | .txtL l, k => txtBinds l k

/-- An item binds key `k` in the name-keyed map (`name_to_translated`). -/
def itemBindsName : GlossItem → String → Prop
  | .jsonE e, k => (pyStrip e.name) = k ∧ k ≠ "" ∧ (pyStrip e.translated) ≠ ""
  | .txtL l, k => txtBinds l k

/-- The value an item assigns (identical for both maps). -/
def itemVal : GlossItem → String
  | .jsonE e => (pyStrip e.translated)
  | .txtL l => txtVal l

theorem applyJsonEntry_orig (m : GlossMaps) (e : TermEntry) :
    (applyJsonEntry m e).original_to_translated =
      if (pyStrip e.original) ≠ "" ∧ (pyStrip e.translated) ≠ "" then
        dset m.original_to_translated (pyStrip e.original) (pyStrip e.translated)
      else m.original_to_translated := by
  unfold applyJsonEntry
  by_cases ho : (pyStrip e.original) ≠ "" ∧ (pyStrip e.translated) ≠ "" <;>
    by_cases hn : (pyStrip e.name) ≠ "" ∧ (pyStrip e.translated) ≠ ""
  · simp only [if_pos ho, if_pos hn]
  · simp only [if_pos ho, if_neg hn]
  · simp only [if_neg ho, if_pos hn]
  · simp only [if_neg ho, if_neg hn]

theorem applyJsonEntry_name (m : GlossMaps) (e : TermEntry) :
    (applyJsonEntry m e).name_to_translated =
      if (pyStrip e.name) ≠ "" ∧ (pyStrip e.translated) ≠ "" then
        dset m.name_to_translated (pyStrip e.name) (pyStrip e.translated)
      else m.name_to_translated := by
  unfold applyJsonEntry
  by_cases ho : (pyStrip e.original) ≠ "" ∧ (pyStrip e.translated) ≠ "" <;>
    by_cases hn : (pyStrip e.name) ≠ "" ∧ (pyStrip e.translated) ≠ ""
  · simp only [if_pos ho, if_pos hn]
  · simp only [if_pos ho, if_neg hn]
  · simp only [if_neg ho, if_pos hn]
  · simp only [if_neg ho, if_neg hn]

theorem dget_applyJsonEntry_orig_binds {e : TermEntry} {k : String} (m : GlossMaps)
    (h : itemBindsOrig (.jsonE e) k) :
    dget (applyJsonEntry m e).original_to_translated k = some (pyStrip e.translated) := by
  obtain ⟨hk, hk0, hv⟩ := h
  subst hk
  rw [applyJsonEntry_orig, if_pos ⟨hk0, hv⟩]
  exact dget_dset_self _ _ _

theorem dget_applyJsonEntry_orig_not_binds {e : TermEntry} {k : String} (m : GlossMaps)
    (h : ¬ itemBindsOrig (.jsonE e) k) :
    dget (applyJsonEntry m e).original_to_translated k =
      dget m.original_to_translated k := by
  rw [applyJsonEntry_orig]
  by_cases ho : (pyStrip e.original) ≠ "" ∧ (pyStrip e.translated) ≠ ""
  · have hk : (pyStrip e.original) ≠ k := by
      intro he
      exact h ⟨he, he ▸ ho.1, ho.2⟩
    rw [if_pos ho]
    exact dget_dset_ne _ _ _ _ hk
  · rw [if_neg ho]

theorem dget_applyJsonEntry_name_binds {e : TermEntry} {k : String} (m : GlossMaps)
    (h : itemBindsName (.jsonE e) k) :
    dget (applyJsonEntry m e).name_to_translated k = some (pyStrip e.translated) := by
  obtain ⟨hk, hk0, hv⟩ := h
  subst hk
  rw [applyJsonEntry_name, if_pos ⟨hk0, hv⟩]
  exact dget_dset_self _ _ _

theorem dget_applyJsonEntry_name_not_binds {e : TermEntry} {k : String} (m : GlossMaps)
    (h : ¬ itemBindsName (.jsonE e) k) :
    dget (applyJsonEntry m e).name_to_translated k =
      dget m.name_to_translated k := by
  rw [applyJsonEntry_name]
  by_cases hn : (pyStrip e.name) ≠ "" ∧ (pyStrip e.translated) ≠ ""
  · have hk : (pyStrip e.name) ≠ k := by
      intro he
      exact h ⟨he, he ▸ hn.1, hn.2⟩
    rw [if_pos hn]
    exact dget_dset_ne _ _ _ _ hk
  · rw [if_neg hn]

theorem dget_applyItem_orig_binds {it : GlossItem} {k : String} (m : GlossMaps)
    (h : itemBindsOrig it k) :
    dget (applyItem m it).original_to_translated k = some (itemVal it) := by
  cases it with
  | jsonE e => exact dget_applyJsonEntry_orig_binds m h
  | txtL l => exact (dget_applyTxtLine_binds m h).1

theorem dget_applyItem_orig_not_binds {it : GlossItem} {k : String} (m : GlossMaps)
    (h : ¬ itemBindsOrig it k) :
    dget (applyItem m it).original_to_translated k =
      dget m.original_to_translated k := by
  cases it with
  | jsonE e => exact dget_applyJsonEntry_orig_not_binds m h
  | txtL l => exact (dget_applyTxtLine_not_binds m h).1

theorem dget_applyItem_name_binds {it : GlossItem} {k : String} (m : GlossMaps)
    (h : itemBindsName it k) :
    dget (applyItem m it).name_to_translated k = some (itemVal it) := by
  cases it with
  | jsonE e => exact dget_applyJsonEntry_name_binds m h
  | txtL l => exact (dget_applyTxtLine_binds m h).2

theorem dget_applyItem_name_not_binds {it : GlossItem} {k : String} (m : GlossMaps)
    (h : ¬ itemBindsName it k) :
    dget (applyItem m it).name_to_translated k =
      dget m.name_to_translated k := by
  cases it with
  | jsonE e => exact dget_applyJsonEntry_name_not_binds m h
  | txtL l => exact (dget_applyTxtLine_not_binds m h).2

theorem dget_foldl_orig_not_binds {k : String} (items : List GlossItem)
    (h : ∀ it ∈ items, ¬ itemBindsOrig it k) (m : GlossMaps) :
    dget (items.foldl applyItem m).original_to_translated k =
      dget m.original_to_translated k := by
  induction items generalizing m with
  | nil => rfl
  | cons it rest ih =>
    exact (ih (fun j hj => h j (by simp [hj])) (applyItem m it)).trans
      (dget_applyItem_orig_not_binds m (h it (by simp)))

theorem dget_foldl_name_not_binds {k : String} (items : List GlossItem)
    (h : ∀ it ∈ items, ¬ itemBindsName it k) (m : GlossMaps) :
    dget (items.foldl applyItem m).name_to_translated k =
      dget m.name_to_translated k := by
  induction items generalizing m with
  | nil => rfl
  | cons it rest ih =>
    exact (ih (fun j hj => h j (by simp [hj])) (applyItem m it)).trans
      (dget_applyItem_name_not_binds m (h it (by simp)))

/-- C4 (as stated, FIRST occurrence wins) is false: for the two txt lines
`蛇=rắn` and `蛇=xà` the built source-text map binds `蛇` to the second
line's value `xà`, not the first line's `rắn`. -/
theorem loadGlossaryTxt_last_wins_example :
    dget (loadGlossaryTxt ["蛇=rắn", "蛇=xà"]).original_to_translated "蛇" =
        some "xà" ∧
    dget (loadGlossaryTxt ["蛇=rắn", "蛇=xà"]).original_to_translated "蛇" ≠
        some "rắn" := by
  constructor <;> decide

/-- C4 amended: on duplicate keys the LAST qualifying occurrence wins, in
both the source-text-keyed and the name-keyed map: if item `it` binds `k`
and no later item binds `k`, the built maps bind `k` to `it`'s value. -/
theorem loadGlossaryItems_last_occurrence_wins
    (pre post : List GlossItem) (it : GlossItem) (k : String) :
    (itemBindsOrig it k → (∀ j ∈ post, ¬ itemBindsOrig j k) →
      dget (loadGlossaryItems (pre ++ it :: post)).original_to_translated k =
        some (itemVal it)) ∧
    (itemBindsName it k → (∀ j ∈ post, ¬ itemBindsName j k) →
      dget (loadGlossaryItems (pre ++ it :: post)).name_to_translated k =
        some (itemVal it)) := by
  have hfold : loadGlossaryItems (pre ++ it :: post) =
      post.foldl applyItem (applyItem (pre.foldl applyItem emptyGloss) it) := by
    simp [loadGlossaryItems, List.foldl_append]
  constructor
  · intro hb hpost
    rw [hfold, dget_foldl_orig_not_binds post hpost]
    exact dget_applyItem_orig_binds _ hb
  · intro hb hpost
    rw [hfold, dget_foldl_name_not_binds post hpost]
    exact dget_applyItem_name_binds _ hb

/-- Witness for the amended C4 theorem at a concrete input. -/
theorem loadGlossaryItems_last_occurrence_wins_witness :
    dget (loadGlossaryItems [.txtL "蛇=rắn", .txtL "蛇=xà"]).original_to_translated
        "蛇" = some "xà" := by
  have h := (loadGlossaryItems_last_occurrence_wins [.txtL "蛇=rắn"] []
    (.txtL "蛇=xà") "蛇").1
    ⟨"蛇".data, "xà".data, by decide, by decide, by decide, by decide⟩ (by simp)
  simpa using h

/-! ## Postprocessing (`src/utils.py`, `postprocess_text`)

`postprocess_text(text, for_json=True)`: strip, restore the `[|]`/`[||]`
markers to `\r`/`\n`, drop `**`, collapse doubled newlines, drop a stock
preamble, and (for JSON) unescape literal `\r`/`\n`. -/

def postprocessText (text : String) (forJson : Bool) : String :=
  let t :=
    pyReplace (pyReplace (pyReplace (pyReplace (pyReplace (pyReplace
      (pyStrip text)
      "[|]" "\r") "[||]" "\n") "**" "") "\n\n" "\n") "\\n\\n" "\\n")
      "Đây là bản dịch:\n" ""
  if forJson then pyReplace (pyReplace t "\\r" "\r") "\\n" "\n"
  else pyReplace (pyReplace t "\r" "\\r") "\n" "\\n"

/-! ## Resilient translate operation (`src/translator.py`, `translate_text`)

`translate_text` runs three nested loops: global retry rounds
(`global_retry_count = 0 .. MAX_GLOBAL_RETRIES`), the model chain
(`[PRIMARY_LLM_MODEL] + FALLBACK_LLM_MODELS`), and per-model credential
attempts (`api_retries < len(API_KEYS)`).  Each iteration of the inner
loop issues exactly one oracle call (`generate_content`).  We embed the
call-to-call transition: the state records the three loop counters and the
number of calls issued so far, and one `translateStep` performs one call
plus all bookkeeping up to the next call or termination.  The oracle is a
function from the call index to the call's outcome, covering any
model/credential-dependent stub.  Valid for a non-empty credential pool
(`config.py` aborts at import when `API_KEYS` is empty) — the model chain
is non-empty by construction. -/

/-- Outcome of one `generate_content` call: non-empty parts with raw text,
empty parts, or a raised exception. -/
inductive CallResult where
  | success (raw : String)
  | empty
  | exc
deriving DecidableEq, Repr

/-- The counters of `translate_text` at the point of the next oracle call:
`global_retry_count`, `current_model_idx`, `api_retries`, plus the number
of calls issued so far. -/
structure TransState where
  g : Nat
  mIdx : Nat
  retries : Nat
  attempts : Nat
deriving DecidableEq, Repr

/-- Final outcome of `translate_text`: the returned string, the total
number of oracle calls, and whether the terminal-failure event
(`logger.critical`, fail-open) was emitted. -/
structure TransResult where
  output : String
  attempts : Nat
  failOpen : Bool
deriving DecidableEq, Repr

/-- The terminal-failure events a result carries: `logger.critical` fires
exactly on the fail-open return. -/
def criticalEvents (r : TransResult) : Nat := if r.failOpen then 1 else 0

/-- One oracle call of `translate_text` and the following control flow, for
a chain of `M` models, `P` credentials and `G = MAX_GLOBAL_RETRIES`.
* success: strip, post-process and return;
* empty parts: `api_retries += 1`; below the pool size, retry the same
  model with the next credential; at the pool size, advance the model and
  break, then leave the round or fail-open as the outer loops dictate;
* exception: `api_retries += 1`, advance the model only when the pool is
  exhausted, and ALWAYS break out of the credential loop — re-entering the
  middle loop resets `api_retries` to 0. -/
def translateStep (oracle : Nat → CallResult) (M P G : Nat) (text : String)
    (s : TransState) : TransState ⊕ TransResult :=
  let a := s.attempts + 1
  match oracle s.attempts with
  | .success raw => .inr ⟨postprocessText raw true, a, false⟩
  | .empty =>
    if s.retries + 1 < P then .inl ⟨s.g, s.mIdx, s.retries + 1, a⟩
    else if s.mIdx + 1 < M then .inl ⟨s.g, s.mIdx + 1, 0, a⟩
    else if s.g < G then .inl ⟨s.g + 1, 0, 0, a⟩
    else .inr ⟨text, a, true⟩
  | .exc =>
    let m := if P ≤ s.retries + 1 then s.mIdx + 1 else s.mIdx
    if m < M then .inl ⟨s.g, m, 0, a⟩
    else if s.g < G then .inl ⟨s.g + 1, 0, 0, a⟩
    else .inr ⟨text, a, true⟩

/-- Iterated `translateStep`, with fuel bounding the number of oracle
calls; `none` means the fuel ran out before `translate_text` returned. -/
def translateRun (oracle : Nat → CallResult) (M P G : Nat) (text : String) :
    Nat → TransState → Option TransResult
  | 0, _ => none
  | fuel + 1, s =>
    match translateStep oracle M P G text s with
    | .inr r => some r
    | .inl s' => translateRun oracle M P G text fuel s'

/-- Constant `MAX_GLOBAL_RETRIES = 1  # One additional full cycle retry` — the local
constant of `translate_text`. -/
def MAX_GLOBAL_RETRIES : Nat := 1

/-- Function `translate_text` itself: model chain `[PRIMARY_LLM_MODEL] +
FALLBACK_LLM_MODELS` (so `fallbackCount + 1` models), pool `API_KEYS`,
starting from all counters zero. -/
def translate_text (oracle : Nat → CallResult) (fallbackCount poolSize : Nat)
    (text : String) (fuel : Nat) : Option TransResult :=
  translateRun oracle (fallbackCount + 1) poolSize MAX_GLOBAL_RETRIES text fuel
    ⟨0, 0, 0, 0⟩

/-- Oracle calls remaining until fail-open when every call returns empty:
the current model's remaining credentials, the later models of the round,
and the remaining full rounds. -/
def remAttempts (M P G : Nat) (s : TransState) : Nat :=
  (G - s.g) * (M * P) + (M - s.mIdx) * P - s.retries

theorem translateRun_succ_inl {oracle : Nat → CallResult} {M P G : Nat}
    {text : String} {s s' : TransState} (n : Nat)
    (h : translateStep oracle M P G text s = .inl s') :
    translateRun oracle M P G text (n + 1) s =
      translateRun oracle M P G text n s' := by
  rw [translateRun, h]

theorem translateRun_succ_inr {oracle : Nat → CallResult} {M P G : Nat}
    {text : String} {s : TransState} {r : TransResult} (n : Nat)
    (h : translateStep oracle M P G text s = .inr r) :
    translateRun oracle M P G text (n + 1) s = some r := by
  rw [translateRun, h]

/-- With an all-empty oracle, `translate_text` fails open after exactly
`remAttempts` further calls: the run terminates iff the fuel covers them. -/
theorem translateRun_all_empty (oracle : Nat → CallResult) (M P G : Nat)
    (text : String) (hor : ∀ n, oracle n = .empty) :
    ∀ (fuel : Nat) (s : TransState), s.g ≤ G → s.mIdx < M → s.retries < P →
      translateRun oracle M P G text fuel s =
        if remAttempts M P G s ≤ fuel then
          some ⟨text, s.attempts + remAttempts M P G s, true⟩
        else none := by
  intro fuel
  induction fuel with
  | zero =>
    intro s hg hm hr
    have hmp : 0 < (M - s.mIdx) * P := Nat.mul_pos (by omega) (by omega)
    have hrm : 0 < remAttempts M P G s := by
      unfold remAttempts
      have hP : s.retries + 1 ≤ (M - s.mIdx) * P := by
        calc s.retries + 1 ≤ P := hr
          _ ≤ (M - s.mIdx) * P := Nat.le_mul_of_pos_left P (by omega)
      omega
    rw [if_neg (by omega)]
    rfl
  | succ n ih =>
    intro s hg hm hr
    have hPpos : 0 < P := by omega
    have hPle : P ≤ (M - s.mIdx) * P := Nat.le_mul_of_pos_left P (by omega)
    by_cases h1 : s.retries + 1 < P
    · have hstep : translateStep oracle M P G text s =
          .inl ⟨s.g, s.mIdx, s.retries + 1, s.attempts + 1⟩ := by
        simp [translateStep, hor s.attempts, h1]
      rw [translateRun_succ_inl n hstep,
        ih ⟨s.g, s.mIdx, s.retries + 1, s.attempts + 1⟩ hg hm h1]
      have hrem : remAttempts M P G ⟨s.g, s.mIdx, s.retries + 1, s.attempts + 1⟩ + 1 =
          remAttempts M P G s := by
        unfold remAttempts
        dsimp only
        omega
      have ha : (⟨s.g, s.mIdx, s.retries + 1, s.attempts + 1⟩ : TransState).attempts =
          s.attempts + 1 := rfl
      by_cases h2 : remAttempts M P G s ≤ n + 1
      · rw [if_pos (by omega), if_pos h2]
        refine congrArg some ?_
        congr 1
        omega
      · rw [if_neg (by omega), if_neg h2]
    · by_cases h2 : s.mIdx + 1 < M
      · have hstep : translateStep oracle M P G text s =
            .inl ⟨s.g, s.mIdx + 1, 0, s.attempts + 1⟩ := by
          simp [translateStep, hor s.attempts, h1, h2]
        rw [translateRun_succ_inl n hstep,
          ih ⟨s.g, s.mIdx + 1, 0, s.attempts + 1⟩ hg h2 hPpos]
        have hrem : remAttempts M P G ⟨s.g, s.mIdx + 1, 0, s.attempts + 1⟩ + 1 =
            remAttempts M P G s := by
          unfold remAttempts
          dsimp only
          have hMm : (M - s.mIdx) * P = (M - (s.mIdx + 1)) * P + P := by
            have h : M - s.mIdx = (M - (s.mIdx + 1)) + 1 := by omega
            rw [h, Nat.add_mul, Nat.one_mul]
          omega
        have ha : (⟨s.g, s.mIdx + 1, 0, s.attempts + 1⟩ : TransState).attempts =
            s.attempts + 1 := rfl
        by_cases h3 : remAttempts M P G s ≤ n + 1
        · rw [if_pos (by omega), if_pos h3]
          refine congrArg some ?_
          congr 1
          omega
        · rw [if_neg (by omega), if_neg h3]
      · by_cases h3 : s.g < G
        · have hstep : translateStep oracle M P G text s =
              .inl ⟨s.g + 1, 0, 0, s.attempts + 1⟩ := by
            simp [translateStep, hor s.attempts, h1, h2, h3]
          rw [translateRun_succ_inl n hstep,
            ih ⟨s.g + 1, 0, 0, s.attempts + 1⟩ (show s.g + 1 ≤ G by omega)
              (show (0 : Nat) < M by omega) hPpos]
          have hrem : remAttempts M P G ⟨s.g + 1, 0, 0, s.attempts + 1⟩ + 1 =
              remAttempts M P G s := by
            unfold remAttempts
            dsimp only
            have hGg : (G - s.g) * (M * P) = (G - (s.g + 1)) * (M * P) + M * P := by
              have h : G - s.g = (G - (s.g + 1)) + 1 := by omega
              rw [h, Nat.add_mul, Nat.one_mul]
            have hM1 : M - s.mIdx = 1 := by omega
            simp only [Nat.sub_zero]
            rw [hM1, Nat.one_mul, hGg]
            omega
          have ha : (⟨s.g + 1, 0, 0, s.attempts + 1⟩ : TransState).attempts =
              s.attempts + 1 := rfl
          by_cases h4 : remAttempts M P G s ≤ n + 1
          · rw [if_pos (by omega), if_pos h4]
            refine congrArg some ?_
            congr 1
            omega
          · rw [if_neg (by omega), if_neg h4]
        · have hstep : translateStep oracle M P G text s =
              .inr ⟨text, s.attempts + 1, true⟩ := by
            simp [translateStep, hor s.attempts, h1, h2, h3]
          have hrem : remAttempts M P G s = 1 := by
            unfold remAttempts
            have hGg : G - s.g = 0 := by omega
            have hM1 : M - s.mIdx = 1 := by omega
            rw [hGg, hM1, Nat.zero_mul, Nat.one_mul]
            omega
          rw [translateRun_succ_inr n hstep, if_pos (by omega), hrem]

/-- An oracle whose every call returns empty parts. -/
def oracleAllEmpty : Nat → CallResult := fun _ => .empty

/-- An oracle whose every call raises an exception. -/
def oracleAllExc : Nat → CallResult := fun _ => .exc

/-- The exception path of `translate_text` re-enters the credential loop
with `api_retries` reset to 0: with at least two credentials and an
always-raising oracle, the loop state repeats forever and the operation
never returns, no matter the fuel. -/
theorem translateRun_all_exc_diverges (oracle : Nat → CallResult)
    (hor : ∀ n, oracle n = .exc) (M P G : Nat) (text : String) (hP : 2 ≤ P) :
    ∀ (fuel g mIdx a : Nat), mIdx < M →
      translateRun oracle M P G text fuel ⟨g, mIdx, 0, a⟩ = none := by
  intro fuel
  induction fuel with
  | zero => intro g mIdx a _; rfl
  | succ n ih =>
    intro g mIdx a hm
    have hstep : translateStep oracle M P G text ⟨g, mIdx, 0, a⟩ =
        .inl ⟨g, mIdx, 0, a + 1⟩ := by
      have hP1 : ¬ (P ≤ 0 + 1) := by omega
      simp [translateStep, hor a, hP1, hm]
    rw [translateRun_succ_inl n hstep]
    exact ih g mIdx (a + 1) hm

/-- C1 as stated is false: with 1 model, 2 credentials and an oracle that
fails every call by raising an exception, the operation has not returned
after the claimed `modelCount * poolSize * (globalRetryRounds + 1) = 4`
oracle calls — nor after 1000. -/
theorem translate_text_all_exc_counterexample :
    translate_text oracleAllExc 0 2 "你好" 4 = none ∧
    translate_text oracleAllExc 0 2 "你好" 1000 = none := by
  constructor <;>
    exact translateRun_all_exc_diverges oracleAllExc (fun _ => rfl) 1 2
      MAX_GLOBAL_RETRIES "你好" (by omega) _ 0 0 0 (by omega)

/-- C1 amended (failures are empty responses): with a non-empty credential
pool and an oracle whose every call returns an empty response,
`translate_text` issues exactly `modelCount * poolSize *
(MAX_GLOBAL_RETRIES + 1)` oracle calls, returns the original text, marks
the result fail-open (exactly one `logger.critical` terminal-failure
event), and has not returned on any smaller call budget. -/
theorem translate_text_all_empty_fail_open (oracle : Nat → CallResult)
    (fallbackCount poolSize : Nat) (text : String)
    (hor : ∀ n, oracle n = .empty) (hP : 0 < poolSize) :
    translate_text oracle fallbackCount poolSize text
        ((fallbackCount + 1) * poolSize * (MAX_GLOBAL_RETRIES + 1)) =
      some ⟨text, (fallbackCount + 1) * poolSize * (MAX_GLOBAL_RETRIES + 1), true⟩ ∧
    criticalEvents
        ⟨text, (fallbackCount + 1) * poolSize * (MAX_GLOBAL_RETRIES + 1), true⟩ = 1 ∧
    ∀ fuel, fuel < (fallbackCount + 1) * poolSize * (MAX_GLOBAL_RETRIES + 1) →
      translate_text oracle fallbackCount poolSize text fuel = none := by
  have hrem : remAttempts (fallbackCount + 1) poolSize MAX_GLOBAL_RETRIES
      ⟨0, 0, 0, 0⟩ =
      (fallbackCount + 1) * poolSize * (MAX_GLOBAL_RETRIES + 1) := by
    unfold remAttempts MAX_GLOBAL_RETRIES
    dsimp only
    simp only [Nat.sub_zero, Nat.one_mul]
    ring
  have hrun := translateRun_all_empty oracle (fallbackCount + 1) poolSize
    MAX_GLOBAL_RETRIES text hor
  refine ⟨?_, rfl, ?_⟩
  · rw [translate_text,
      hrun _ ⟨0, 0, 0, 0⟩ (Nat.zero_le _) (Nat.succ_pos _) hP, hrem, if_pos le_rfl]
    simp
  · intro fuel hlt
    rw [translate_text,
      hrun fuel ⟨0, 0, 0, 0⟩ (Nat.zero_le _) (Nat.succ_pos _) hP, hrem,
      if_neg (by omega)]

/-- Witness: 2 models, 3 credentials, all-empty oracle — fail-open with
exactly `2 * 3 * 2 = 12` calls. -/
theorem translate_text_all_empty_fail_open_witness :
    translate_text oracleAllEmpty 1 3 "你好" 12 = some ⟨"你好", 12, true⟩ ∧
    translate_text oracleAllEmpty 1 3 "你好" 11 = none := by
  have h := translate_text_all_empty_fail_open oracleAllEmpty 1 3 "你好"
    (fun _ => rfl) (by omega)
  exact ⟨h.1, h.2.2 11 (by norm_num [MAX_GLOBAL_RETRIES])⟩

/-- C2's failing input evaluated on the code: 2 models, 2 credentials,
every call raising.  The first exception does NOT lead to a second
credential attempt with `api_retries = 1`; instead the code breaks out of
the credential loop and re-enters it with `api_retries` reset to 0 on the
same (primary) model, so the pool-size limit is never reached and the
operation never returns (the fallback model is never consulted either). -/
theorem translate_text_exception_resets_credential_loop :
    translateStep oracleAllExc 2 2 MAX_GLOBAL_RETRIES "你好" ⟨0, 0, 0, 0⟩ =
      .inl ⟨0, 0, 0, 1⟩ ∧
    translate_text oracleAllExc 1 2 "你好" 1000 = none := by
  refine ⟨rfl, ?_⟩
  exact translateRun_all_exc_diverges oracleAllExc (fun _ => rfl) 2 2
    MAX_GLOBAL_RETRIES "你好" (by omega) _ 0 0 0 (by omega)

/-! ## Per-entry processing (`src/file_processor.py`, `process_entry`)

An input record is a JSON object; we model the presence/absence of its
`Name` and `Text` fields plus any additional fields it carries.
`run_stats` is the four-counter dict created in `main_async`
(`{"from_cache": 0, "from_glossary": 0, "special_chars": 0, "empty": 0}`,
`src/main.py` line 165); it is always passed in truthy from the pipeline.
`translate_text` always returns a string and never raises, so the remote
call is abstracted as a string function; the third result component counts
how often it is invoked (0 on every short-circuit). -/

/-- List `SPECIAL_CHARS` from `src/utils.py`. -/
def SPECIAL_CHARS : List String :=
  ["？？？", "\x7b\x7btitle\x7d\x7d", "???", "[\x7b\x7b0\x7d\x7d]",
   "[\x7b0\x7d]", "[|]", "[||]", "……。", "……！"]

/-- One localization record: optional `Name` and `Text` fields plus its
remaining fields. -/
structure Entry where
  name : Option String
  text : Option String
  extra : List (String × String)
deriving DecidableEq, Repr

/-- The run-statistics counters created in `main_async`. -/
structure Stats where
  from_cache : Nat
  from_glossary : Nat
  special_chars : Nat
  empty : Nat
deriving DecidableEq, Repr

/-- Initial `run_stats` value (`src/main.py` line 165). -/
def initStats : Stats := ⟨0, 0, 0, 0⟩

/-- Python truthiness of `d.get(k)`: `None` and `""` are both falsy. -/
def truthy : Option String → Option String
  | some v => if v = "" then none else some v
  | none => none

/-- Function `process_entry`: missing fields pass the record through; strip the
text; empty text passes through counting `empty`; a `SPECIAL_CHARS` match
returns `{'Name', 'Text'}` counting `special_chars`; then the cache, then
the glossary (each only when the dict is truthy and the looked-up value is
truthy); otherwise call `translate_text` on the stripped text.  Every
constructed result is a two-field `{'Name', 'Text'}` dict. -/
def process_entry (translateFn : String → String)
    (glossary_text translation_cache : Dict) (run_stats : Stats)
    (entry : Entry) : Entry × Stats × Nat :=
  match entry.name, entry.text with
  | some name, some rawText =>
    let original_text := pyStrip rawText
    if original_text = "" then
      (entry, { run_stats with empty := run_stats.empty + 1 }, 0)
    else if original_text ∈ SPECIAL_CHARS then
      (⟨some name, some original_text, []⟩,
        { run_stats with special_chars := run_stats.special_chars + 1 }, 0)
    else
      match
        if translation_cache.isEmpty then none
        else truthy (dget translation_cache original_text) with
      | some cached_translation =>
        (⟨some name, some cached_translation, []⟩,
          { run_stats with from_cache := run_stats.from_cache + 1 }, 0)
      | none =>
        match
          if glossary_text.isEmpty then none
          else truthy (dget glossary_text original_text) with
        | some existing_translation =>
          (⟨some name, some existing_translation, []⟩,
            { run_stats with from_glossary := run_stats.from_glossary + 1 }, 0)
        | none =>
          (⟨some name, some (translateFn original_text), []⟩, run_stats, 1)
  | _, _ => (entry, run_stats, 0)

theorem truthy_some_ne {v : String} (h : v ≠ "") : truthy (some v) = some v := by
  simp [truthy, h]

/-- Shorthand: `dget` hit with a truthy value on a (hence non-empty) dict. -/
theorem cache_branch_resolves {d : Dict} {k v : String}
    (hget : dget d k = some v) (hv : v ≠ "") :
    (if d.isEmpty then none else truthy (dget d k)) = some v := by
  have hne : d ≠ [] := dget_some_ne_nil hget
  rw [if_neg (by simpa [List.isEmpty_iff] using hne), hget, truthy_some_ne hv]

theorem hit_of_if {d : Dict} {k v : String}
    (h : (if d.isEmpty then none else truthy (dget d k)) = some v) :
    truthy (dget d k) = some v := by
  by_cases he : d.isEmpty
  · rw [if_pos he] at h; exact absurd h (by simp)
  · rwa [if_neg he] at h

theorem miss_branch {d : Dict} {k : String}
    (h : d.isEmpty = true ∨ truthy (dget d k) = none) :
    (if d.isEmpty then none else truthy (dget d k)) = none := by
  rcases h with h | h
  · rw [if_pos h]
  · by_cases he : d.isEmpty
    · rw [if_pos he]
    · rw [if_neg he]; exact h

/-- Branch anatomy of `process_entry` for a present, non-empty entry:
`Name` is preserved, additional fields are dropped, and the output text is
the stripped input (special marker), a truthy cache hit, a truthy glossary
hit, or the translation of the stripped text. -/
theorem process_entry_cases (translateFn : String → String)
    (glossary_text translation_cache : Dict) (run_stats : Stats)
    (name rawText : String) (extra : List (String × String))
    (hne : pyStrip rawText ≠ "") :
    (process_entry translateFn glossary_text translation_cache run_stats
        ⟨some name, some rawText, extra⟩).1.name = some name ∧
    (process_entry translateFn glossary_text translation_cache run_stats
        ⟨some name, some rawText, extra⟩).1.extra = [] ∧
    ((process_entry translateFn glossary_text translation_cache run_stats
        ⟨some name, some rawText, extra⟩).1.text = some (pyStrip rawText) ∨
     (∃ v, truthy (dget translation_cache (pyStrip rawText)) = some v ∧
       (process_entry translateFn glossary_text translation_cache run_stats
         ⟨some name, some rawText, extra⟩).1.text = some v) ∨
     (∃ v, truthy (dget glossary_text (pyStrip rawText)) = some v ∧
       (process_entry translateFn glossary_text translation_cache run_stats
         ⟨some name, some rawText, extra⟩).1.text = some v) ∨
     (process_entry translateFn glossary_text translation_cache run_stats
        ⟨some name, some rawText, extra⟩).1.text =
       some (translateFn (pyStrip rawText))) := by
  simp only [process_entry]
  rw [if_neg hne]
  by_cases hsp : pyStrip rawText ∈ SPECIAL_CHARS
  · rw [if_pos hsp]
    exact ⟨rfl, rfl, Or.inl rfl⟩
  · rw [if_neg hsp]
    cases hq : (if translation_cache.isEmpty then none
        else truthy (dget translation_cache (pyStrip rawText))) with
    | some v =>
      exact ⟨rfl, rfl, Or.inr (Or.inl ⟨v, hit_of_if hq, rfl⟩)⟩
    | none =>
      cases hg : (if glossary_text.isEmpty then none
          else truthy (dget glossary_text (pyStrip rawText))) with
      | some v =>
        exact ⟨rfl, rfl, Or.inr (Or.inr (Or.inl ⟨v, hit_of_if hg, rfl⟩))⟩
      | none =>
        exact ⟨rfl, rfl, Or.inr (Or.inr (Or.inr rfl))⟩

/-- C5 corrected: the special-marker short-circuit precedes the cache: the
entry text `???` is a cache key, yet processing returns `???` itself,
increments `special_chars` (not `from_cache`), and the cached value is not
used. -/
theorem process_entry_special_overrides_cache :
    process_entry (fun _ => "X") [] [("???", "ba dấu hỏi")] initStats
        ⟨some "n", some "???", []⟩ =
      (⟨some "n", some "???", []⟩, ⟨0, 0, 1, 0⟩, 0) ∧
    (process_entry (fun _ => "X") [] [("???", "ba dấu hỏi")] initStats
        ⟨some "n", some "???", []⟩).1.text ≠ some "ba dấu hỏi" := by
  constructor <;> decide

/-- C5 amended: for an entry with both fields whose stripped text is
non-empty and not a special marker, a truthy cache hit resolves the entry
with zero oracle calls, the cached value, and exactly one `from_cache`
increment — for any glossary, which is never consulted; failing the cache,
a truthy glossary hit resolves likewise with one `from_glossary`
increment. -/
theorem process_entry_cache_before_glossary (translateFn : String → String)
    (glossary_text translation_cache : Dict) (run_stats : Stats)
    (name rawText : String) (extra : List (String × String))
    (hne : pyStrip rawText ≠ "")
    (hsp : pyStrip rawText ∉ SPECIAL_CHARS) :
    (∀ v, dget translation_cache (pyStrip rawText) = some v → v ≠ "" →
      process_entry translateFn glossary_text translation_cache run_stats
          ⟨some name, some rawText, extra⟩ =
        (⟨some name, some v, []⟩,
         { run_stats with from_cache := run_stats.from_cache + 1 }, 0)) ∧
    ((translation_cache.isEmpty = true ∨
        truthy (dget translation_cache (pyStrip rawText)) = none) →
      ∀ v, dget glossary_text (pyStrip rawText) = some v → v ≠ "" →
      process_entry translateFn glossary_text translation_cache run_stats
          ⟨some name, some rawText, extra⟩ =
        (⟨some name, some v, []⟩,
         { run_stats with from_glossary := run_stats.from_glossary + 1 }, 0)) := by
  constructor
  · intro v hget hv
    simp only [process_entry]
    rw [if_neg hne, if_neg hsp, cache_branch_resolves hget hv]
  · intro hmiss v hget hv
    simp only [process_entry]
    rw [if_neg hne, if_neg hsp, miss_branch hmiss]
    simp only
    rw [cache_branch_resolves hget hv]

/-- Witness: a cache hit beats the glossary; with an empty cache the
glossary hit resolves. -/
theorem process_entry_cache_before_glossary_witness :
    process_entry (fun _ => "X") [("你", "bạn")] [("你", "anh")] initStats
        ⟨some "n", some " 你 ", []⟩ =
      (⟨some "n", some "anh", []⟩, ⟨1, 0, 0, 0⟩, 0) ∧
    process_entry (fun _ => "X") [("你", "bạn")] [] initStats
        ⟨some "n", some " 你 ", []⟩ =
      (⟨some "n", some "bạn", []⟩, ⟨0, 1, 0, 0⟩, 0) := by
  constructor
  · exact (process_entry_cache_before_glossary (fun _ => "X") [("你", "bạn")]
      [("你", "anh")] initStats "n" " 你 " [] (by decide) (by decide)).1
      "anh" (by decide) (by decide)
  · exact (process_entry_cache_before_glossary (fun _ => "X") [("你", "bạn")]
      [] initStats "n" " 你 " [] (by decide) (by decide)).2
      (Or.inl (by decide)) "bạn" (by decide) (by decide)

/-! ## Run summary (`src/logger.py`, `run_summary`; `src/main.py`) -/

/-- The per-tier counts `run_summary` reports: the four collected counters
plus the derived `new_translations` and the (always-zero here, as
`main_async` never passes it) `from_reuse_translation`. -/
def runSummaryCounts (total : Nat) (st : Stats) : List (String × Nat) :=
  [("From Cache", st.from_cache),
   ("From Glossary", st.from_glossary),
   ("Empty Lines", st.empty),
   ("Special Characters", st.special_chars),
   ("New Translations",
     total - st.from_cache - st.from_glossary - st.empty - st.special_chars),
   ("Reuse Translations", 0)]

/-- C8 as stated is false: an entry surviving all short-circuits reaches
the remote call (third component 1) yet leaves `run_stats` completely
unchanged — the stats dict created in `main_async` has no `remoteCalls`
and no `failOpens` counter to increment. -/
theorem process_entry_remote_not_counted :
    process_entry (fun _ => "chào") [] [] initStats ⟨some "n", some "你", []⟩ =
      (⟨some "n", some "chào", []⟩, initStats, 1) := by decide

/-- C8 amended: the run statistics comprise exactly the four counters
{from_cache, from_glossary, special_chars, empty}; entries resolved
remotely (or by fail-open, which is invisible to `process_entry`) change
none of them, and the summary reports those four tiers plus a derived
new-translations count — no remote or fail-open tier. -/
theorem run_stats_four_counters (translateFn : String → String)
    (glossary_text translation_cache : Dict) (run_stats : Stats)
    (name rawText : String) (extra : List (String × String)) (total : Nat)
    (hne : pyStrip rawText ≠ "")
    (hsp : pyStrip rawText ∉ SPECIAL_CHARS)
    (hc : translation_cache.isEmpty = true ∨
      truthy (dget translation_cache (pyStrip rawText)) = none)
    (hg : glossary_text.isEmpty = true ∨
      truthy (dget glossary_text (pyStrip rawText)) = none) :
    process_entry translateFn glossary_text translation_cache run_stats
        ⟨some name, some rawText, extra⟩ =
      (⟨some name, some (translateFn (pyStrip rawText)), []⟩, run_stats, 1) ∧
    (runSummaryCounts total run_stats).map Prod.fst =
      ["From Cache", "From Glossary", "Empty Lines", "Special Characters",
       "New Translations", "Reuse Translations"] := by
  constructor
  · simp only [process_entry]
    rw [if_neg hne, if_neg hsp, miss_branch hc]
    simp only
    rw [miss_branch hg]
  · rfl

/-- Witness: a remote entry changes no counter and the summary names. -/
theorem run_stats_four_counters_witness :
    process_entry (fun _ => "xin") [] [] initStats ⟨some "n", some "好", []⟩ =
      (⟨some "n", some "xin", []⟩, initStats, 1) ∧
    (runSummaryCounts 7 initStats).map Prod.fst =
      ["From Cache", "From Glossary", "Empty Lines", "Special Characters",
       "New Translations", "Reuse Translations"] :=
  run_stats_four_counters (fun _ => "xin") [] [] initStats "n" "好" [] 7
    (by decide) (by decide) (Or.inl (by decide)) (Or.inl (by decide))

/-- C9 as stated is false: a record's additional field `Category` does not
appear in the re-emitted record — the translated entry is rebuilt as a
two-field `{'Name', 'Text'}` dict. -/
theorem process_entry_extra_dropped_example :
    process_entry (fun _ => "X") [("你", "bạn")] [] initStats
        ⟨some "n", some "你", [("Category", "UI")]⟩ =
      (⟨some "n", some "bạn", []⟩, ⟨0, 1, 0, 0⟩, 0) ∧
    ("Category", "UI") ∉
      (process_entry (fun _ => "X") [("你", "bạn")] [] initStats
        ⟨some "n", some "你", [("Category", "UI")]⟩).1.extra := by
  constructor <;> decide

/-- C9 amended: a processed record is re-emitted with the identifier kept
and ONLY the `Name` and `Text` fields — additional input fields are
dropped, except in the missing-field and empty-text pass-through branches,
which return the input record unchanged. -/
theorem process_entry_frame (translateFn : String → String)
    (glossary_text translation_cache : Dict) (run_stats : Stats) :
    (∀ e : Entry, (e.name = none ∨ e.text = none) →
      process_entry translateFn glossary_text translation_cache run_stats e =
        (e, run_stats, 0)) ∧
    (∀ (name rawText : String) (extra : List (String × String)),
      pyStrip rawText = "" →
      process_entry translateFn glossary_text translation_cache run_stats
          ⟨some name, some rawText, extra⟩ =
        (⟨some name, some rawText, extra⟩,
         { run_stats with empty := run_stats.empty + 1 }, 0)) ∧
    (∀ (name rawText : String) (extra : List (String × String)),
      pyStrip rawText ≠ "" →
      (process_entry translateFn glossary_text translation_cache run_stats
          ⟨some name, some rawText, extra⟩).1.name = some name ∧
      (process_entry translateFn glossary_text translation_cache run_stats
          ⟨some name, some rawText, extra⟩).1.extra = []) := by
  refine ⟨?_, ?_, ?_⟩
  · intro e he
    obtain ⟨n, t, ex⟩ := e
    rcases he with h | h
    · replace h : n = none := h
      subst h
      rfl
    · replace h : t = none := h
      subst h
      cases n <;> rfl
  · intro name rawText extra h0
    simp only [process_entry]
    rw [if_pos h0]
  · intro name rawText extra hne
    exact ⟨(process_entry_cases translateFn glossary_text translation_cache
      run_stats name rawText extra hne).1,
      (process_entry_cases translateFn glossary_text translation_cache
      run_stats name rawText extra hne).2.1⟩

/-- Witness for the frame theorem at concrete records. -/
theorem process_entry_frame_witness :
    process_entry (fun _ => "X") [] [] initStats ⟨none, some "你", []⟩ =
      (⟨none, some "你", []⟩, initStats, 0) ∧
    process_entry (fun _ => "X") [] [] initStats ⟨some "n", some "  ", []⟩ =
      (⟨some "n", some "  ", []⟩, ⟨0, 0, 0, 1⟩, 0) ∧
    (process_entry (fun _ => "X") [] [] initStats
        ⟨some "n", some "你", [("k", "v")]⟩).1.extra = [] := by
  have h := process_entry_frame (fun _ => "X") [] [] initStats
  exact ⟨h.1 ⟨none, some "你", []⟩ (Or.inl rfl),
    h.2.1 "n" "  " [] (by decide),
    (h.2.2 "n" "你" [("k", "v")] (by decide)).2⟩

/-- C10 as stated is false on its trimming conjunct: the returned `Text`
is the resolved translation verbatim.  `translate_text`'s success path
returns `postprocess_text(raw.strip())`, which restores `[||]` to a
real newline AFTER stripping — so the oracle response `xin chào[||]`
yields an output text with trailing whitespace, which `process_entry`
passes through unstripped. -/
theorem process_entry_text_not_stripped :
    translate_text (fun _ => .success "xin chào[||]") 0 1 "你好" 1 =
      some ⟨"xin chào\n", 1, false⟩ ∧
    (process_entry (fun _ => "xin chào\n") [] [] initStats
        ⟨some "n", some " 你好 ", []⟩).1.text = some "xin chào\n" ∧
    pyStrip "xin chào\n" ≠ "xin chào\n" := by
  refine ⟨by decide, by decide, by decide⟩

/-- C10 amended: `process_entry` strips the text before every check and
before translation (all branch keys and the translator argument are
`pyStrip rawText`), returns a dict with exactly the keys `Name` and `Text`
whose `Text` is the resolved value taken verbatim (stripped input text,
truthy cache hit, truthy glossary hit, or the translator's output — which
may itself carry restored trailing whitespace), and only the missing-field
and empty-text branches return the input record itself. -/
theorem process_entry_strip_and_shape (translateFn : String → String)
    (glossary_text translation_cache : Dict) (run_stats : Stats) :
    (∀ e : Entry, (e.name = none ∨ e.text = none) →
      process_entry translateFn glossary_text translation_cache run_stats e =
        (e, run_stats, 0)) ∧
    (∀ (name rawText : String) (extra : List (String × String)),
      pyStrip rawText = "" →
      process_entry translateFn glossary_text translation_cache run_stats
          ⟨some name, some rawText, extra⟩ =
        (⟨some name, some rawText, extra⟩,
         { run_stats with empty := run_stats.empty + 1 }, 0)) ∧
    (∀ (name rawText : String) (extra : List (String × String)),
      pyStrip rawText ≠ "" →
      (process_entry translateFn glossary_text translation_cache run_stats
          ⟨some name, some rawText, extra⟩).1.name = some name ∧
      (process_entry translateFn glossary_text translation_cache run_stats
          ⟨some name, some rawText, extra⟩).1.extra = [] ∧
      ((process_entry translateFn glossary_text translation_cache run_stats
          ⟨some name, some rawText, extra⟩).1.text = some (pyStrip rawText) ∨
       (∃ v, truthy (dget translation_cache (pyStrip rawText)) = some v ∧
         (process_entry translateFn glossary_text translation_cache run_stats
           ⟨some name, some rawText, extra⟩).1.text = some v) ∨
       (∃ v, truthy (dget glossary_text (pyStrip rawText)) = some v ∧
         (process_entry translateFn glossary_text translation_cache run_stats
           ⟨some name, some rawText, extra⟩).1.text = some v) ∨
       (process_entry translateFn glossary_text translation_cache run_stats
          ⟨some name, some rawText, extra⟩).1.text =
         some (translateFn (pyStrip rawText)))) := by
  refine ⟨(process_entry_frame translateFn glossary_text translation_cache
    run_stats).1,
    (process_entry_frame translateFn glossary_text translation_cache
    run_stats).2.1, ?_⟩
  intro name rawText extra hne
  exact process_entry_cases translateFn glossary_text translation_cache
    run_stats name rawText extra hne

/-- Witness: the translator receives the stripped text and its output is
emitted verbatim. -/
theorem process_entry_strip_and_shape_witness :
    (process_entry (fun t => t ++ "!") [] [] initStats
        ⟨some "n", some " 你 ", []⟩).1.text = some "你!" := by
  have h := ((process_entry_strip_and_shape (fun t => t ++ "!") [] []
    initStats).2.2 "n" " 你 " [] (by decide))
  rcases h.2.2 with h1 | ⟨v, hv, _⟩ | ⟨v, hv, _⟩ | h4
  · exact absurd h1 (by decide)
  · simp [dget, truthy] at hv
  · simp [dget, truthy] at hv
  · exact h4

/-! ## Entry scheduler (`src/file_processor.py`, `process_json_file`)

`process_json_file` builds one task per entry (`_create_translation_tasks`
pairs each entry with its index) and awaits
`asyncio.gather(*[safe_process_entry_with_delay(task) for task in tasks])`
under `asyncio.Semaphore(MAX_CONCURRENT)`.  `gather` places each task's
result at the task's input position, whatever order tasks complete in.  We
model an execution as the completion order of the task indices: task `j`
completes by writing its result into slot `j`.  Per-entry delays and the
semaphore bound only determine WHICH completion order occurs, so
quantifying over all permutations covers every delay assignment and every
concurrency bound `K`, including `K < N`. -/

/-- Completion of task `j`: its result is stored at slot `j` of the result
list (the defining property of `asyncio.gather`). -/
def scheduleStep (f : Nat → α → β) (entries : List α)
    (acc : List (Option β)) (j : Nat) : List (Option β) :=
  match entries[j]? with
  | some e => acc.set j (some (f j e))
  | none => acc

/-- Run all tasks in completion order `order` starting from empty slots. -/
def runSchedule (f : Nat → α → β) (entries : List α) (order : List Nat) :
    List (Option β) :=
  order.foldl (scheduleStep f entries) (List.replicate entries.length none)

/-- The per-file gather of `process_json_file`: each task runs
`process_entry` on its entry (its result does not depend on the shared
stats dict, which is only incremented). -/
def gatherTranslations (translateFn : String → String)
    (glossary_text translation_cache : Dict) (run_stats : Stats)
    (entries : List Entry) (order : List Nat) : List (Option Entry) :=
  runSchedule
    (fun _ e =>
      (process_entry translateFn glossary_text translation_cache run_stats e).1)
    entries order

theorem runSchedule_foldl_getElem (f : Nat → α → β) (entries : List α) :
    ∀ (order : List Nat) (acc : List (Option β)),
      acc.length = entries.length →
      ∀ i (hi : i < entries.length),
        (order.foldl (scheduleStep f entries) acc)[i]? =
          if i ∈ order then some (some (f i (entries.get ⟨i, hi⟩)))
          else acc[i]? := by
  intro order
  induction order with
  | nil => intro acc hlen i hi; simp
  | cons j rest ih =>
    intro acc hlen i hi
    have hstep : (scheduleStep f entries acc j).length = entries.length := by
      unfold scheduleStep
      cases hj : entries[j]? with
      | some e => simpa using hlen
      | none => exact hlen
    rw [List.foldl_cons, ih (scheduleStep f entries acc j) hstep i hi]
    by_cases hm : i ∈ rest
    · rw [if_pos hm, if_pos (by simp [hm])]
    · rw [if_neg hm]
      by_cases hj : j = i
      · subst hj
        rw [if_pos (by simp)]
        unfold scheduleStep
        rw [List.getElem?_eq_getElem hi]
        exact List.getElem?_set_eq_of_lt _ (by omega)
      · rw [if_neg (by
          simp only [List.mem_cons]
          rintro (h | h)
          · exact hj h.symm
          · exact hm h)]
        unfold scheduleStep
        cases hq : entries[j]? with
        | some e => exact List.getElem?_set_ne (by omega)
        | none => rfl

/-- C3: under any completion order (hence any per-entry delays and any
concurrency bound), the gathered output list holds at position `i` the
processed result of the `i`-th input entry. -/
theorem process_json_file_order_preserved (translateFn : String → String)
    (glossary_text translation_cache : Dict) (run_stats : Stats)
    (entries : List Entry) (order : List Nat)
    (hperm : order.Perm (List.range entries.length)) :
    ∀ i (hi : i < entries.length),
      (gatherTranslations translateFn glossary_text translation_cache run_stats
          entries order)[i]? =
        some (some ((process_entry translateFn glossary_text translation_cache
          run_stats (entries.get ⟨i, hi⟩)).1)) := by
  intro i hi
  have hmem : i ∈ order := hperm.mem_iff.mpr (List.mem_range.mpr hi)
  unfold gatherTranslations runSchedule
  rw [runSchedule_foldl_getElem _ entries order _ (List.length_replicate _ _) i hi,
    if_pos hmem]

/-- Witness: three entries completing in the order 2, 0, 1 still produce
the output list in input order. -/
theorem process_json_file_order_preserved_witness :
    (gatherTranslations (fun t => t ++ "!") [] [] initStats
        [⟨some "a", some "一", []⟩, ⟨some "b", some "二", []⟩,
         ⟨some "c", some "三", []⟩] [2, 0, 1])[1]? =
      some (some ⟨some "b", some "二!", []⟩) := by
  have h := process_json_file_order_preserved (fun t => t ++ "!") [] []
    initStats
    [⟨some "a", some "一", []⟩, ⟨some "b", some "二", []⟩,
     ⟨some "c", some "三", []⟩] [2, 0, 1] (by decide) 1 (by decide)
  rw [h]
  decide

/-! ## File producer (`src/main.py`, `file_producer`)

`read_file_and_put_in_queue` reads a 4096-character leading chunk, tests
`re.search(r'"Language":\s*"ChineseSimplified"', initial_chunk)`, and on
failure writes a skip message and RETURNS — the file is neither enqueued
nor written anywhere.  On success it reads the rest, in improve mode looks
up a paired raw-translation file (absence only warns), and enqueues
`(path, content, paired_path, paired_content)`.  The event list records
everything the producer does with a file; `writeOutput` is included in the
vocabulary to express that no producer path ever copies a file to the
output directory. -/

/-- A discovered input file: its name and full content. -/
structure SourceFile where
  name : String
  content : String
deriving DecidableEq, Repr

/-- A queue item `(path, original content, paired path, paired content)`. -/
structure QueueItem where
  path : String
  content : String
  pairedPath : Option String
  pairedContent : Option String
deriving DecidableEq, Repr

/-- Observable actions of the producer for one file. -/
inductive ProducerEvent where
  | skipMsg (fileName : String)
  | warnNoPaired (fileName : String)
  | enqueue (item : QueueItem)
  | writeOutput (path content : String)
deriving DecidableEq, Repr

/-- Run mode (`--mode`). -/
inductive Mode where
  | translate
  | improve
deriving DecidableEq, Repr

/-- Match of `"Language":\s*"ChineseSimplified"` at the head of `l`
(Python `\s` on ASCII coincides with `pyWS`). -/
def langPatternAt (l : List Char) : Bool :=
  let pre := "\"Language\":".data
  if pre.isPrefixOf l then
    "\"ChineseSimplified\"".data.isPrefixOf ((l.drop pre.length).dropWhile pyWS)
  else false

/-- Python `re.search`: the pattern matches at some position. -/
def langSearch : List Char → Bool
  | [] => false
  | c :: rest => langPatternAt (c :: rest) || langSearch rest

/-- The target-language predicate applied to the leading chunk. -/
def targetLanguageChunk (content : String) : List Char :=
  content.data.take 4096

/-- Function `read_file_and_put_in_queue` for one discovered file. -/
def file_producer_read (mode : Mode) (pairedMap : List (String × String))
    (file : SourceFile) : List ProducerEvent :=
  if langSearch (targetLanguageChunk file.content) = false then
    [.skipMsg file.name]
  else
    match mode with
    | .translate => [.enqueue ⟨file.name, file.content, none, none⟩]
    | .improve =>
      match dget pairedMap file.name with
      | some paired =>
        [.enqueue ⟨file.name, file.content, some file.name, some paired⟩]
      | none =>
        [.warnNoPaired file.name,
         .enqueue ⟨file.name, file.content, none, none⟩]

/-- C6 as stated is false on its copy-through conjunct: a non-matching
file produces only the skip message — in particular it is NOT copied to
the output (no `writeOutput` event exists anywhere in the producer). -/
theorem file_producer_skip_no_copy :
    file_producer_read .translate []
        ⟨"a.json", "\"Language\": \"Japanese\""⟩ =
      [.skipMsg "a.json"] ∧
    ProducerEvent.writeOutput "a.json" "\"Language\": \"Japanese\"" ∉
      file_producer_read .translate []
        ⟨"a.json", "\"Language\": \"Japanese\""⟩ := by
  constructor <;> decide

/-- C6 amended: a file whose leading 4096-character chunk fails the
target-language predicate is skipped outright: the producer emits only a
skip message — it neither enqueues the file nor writes anything to the
output (the file is excluded from all further processing, but no
pass-through copy is made). -/
theorem file_producer_skips_non_matching (mode : Mode)
    (pairedMap : List (String × String)) (file : SourceFile)
    (h : langSearch (targetLanguageChunk file.content) = false) :
    file_producer_read mode pairedMap file = [.skipMsg file.name] ∧
    (∀ item, ProducerEvent.enqueue item ∉ file_producer_read mode pairedMap file) ∧
    (∀ p c, ProducerEvent.writeOutput p c ∉
      file_producer_read mode pairedMap file) := by
  have he : file_producer_read mode pairedMap file = [.skipMsg file.name] := by
    unfold file_producer_read
    rw [if_pos h]
  refine ⟨he, ?_, ?_⟩
  · intro item hmem
    rw [he] at hmem
    simp at hmem
  · intro p c hmem
    rw [he] at hmem
    simp at hmem

/-- Witness: a Japanese-tagged file is skipped in both modes. -/
theorem file_producer_skips_non_matching_witness :
    file_producer_read .improve [("a.json", "x")]
        ⟨"a.json", "\"Language\": \"Japanese\""⟩ =
      [.skipMsg "a.json"] :=
  (file_producer_skips_non_matching .improve [("a.json", "x")]
    ⟨"a.json", "\"Language\": \"Japanese\""⟩ (by decide)).1

/-! ## File pipeline queue (`src/main.py`, `main_async`)

`main_async` creates `queue = asyncio.Queue()` — no `maxsize`, hence an
UNBOUNDED queue: `queue.put` never blocks.  The pipeline state counts the
matching files not yet enqueued, the enqueued-but-unprocessed items, and
the processed items; `produce` is enabled whenever a file remains —
with no condition on the queue length — and `consume` (the single
consumer's `queue.get`) whenever the queue is non-empty. -/

/-- Pipeline state: files not yet enqueued, items in the queue, items
fully processed. -/
structure PipeState where
  pending : Nat
  queued : Nat
  processed : Nat
deriving DecidableEq, Repr

/-- One transition of the producer/consumer pipeline.  `produce` has no
guard on `queued`: `asyncio.Queue()` has infinite capacity, so `put`
always succeeds immediately. -/
inductive PipeStep : PipeState → PipeState → Prop
  | produce (p q d : Nat) : PipeStep ⟨p + 1, q, d⟩ ⟨p, q + 1, d⟩
  | consume (p q d : Nat) : PipeStep ⟨p, q + 1, d⟩ ⟨p, q, d + 1⟩

/-- Reachability from an initial state. -/
inductive PipeReachable (init : PipeState) : PipeState → Prop
  | refl : PipeReachable init init
  | step {s t : PipeState} :
      PipeReachable init s → PipeStep s t → PipeReachable init t

/-- The pipeline start state for `n` matching files. -/
def pipeInit (n : Nat) : PipeState := ⟨n, 0, 0⟩

theorem PipeReachable.head {a b c : PipeState}
    (hab : PipeStep a b) (hbc : PipeReachable b c) : PipeReachable a c := by
  induction hbc with
  | refl => exact PipeReachable.step PipeReachable.refl hab
  | step hr hs ih => exact PipeReachable.step ih hs

theorem pipe_produce_chain (j : Nat) :
    ∀ (p q d : Nat), PipeReachable ⟨p + j, q, d⟩ ⟨p, q + j, d⟩ := by
  induction j with
  | zero => intro p q d; exact PipeReachable.refl
  | succ j ih =>
    intro p q d
    have h1 : PipeStep ⟨p + j + 1, q, d⟩ ⟨p + j, q + 1, d⟩ :=
      PipeStep.produce (p + j) q d
    have h2 := ih p (q + 1) d
    have h3 : q + 1 + j = q + (j + 1) := by omega
    rw [h3] at h2
    exact PipeReachable.head h1 h2

/-- C7 as stated is false: no fixed capacity bound `B` covers every
reachable pipeline state — the producer can enqueue all `B + 1` files of a
run before the consumer dequeues any, because `asyncio.Queue()` is created
without a maxsize and `put` never blocks. -/
theorem pipeline_queue_unbounded :
    ¬ ∃ B : Nat, ∀ (n : Nat) (s : PipeState),
      PipeReachable (pipeInit n) s → s.queued ≤ B := by
  rintro ⟨B, hB⟩
  have hreach : PipeReachable (pipeInit (B + 1)) ⟨0, B + 1, 0⟩ := by
    have h := pipe_produce_chain (B + 1) 0 0 0
    simpa [pipeInit] using h
  have h := hB (B + 1) ⟨0, B + 1, 0⟩ hreach
  simp only [PipeState.queued] at h
  omega

/-- C7 amended: the queue is unbounded — an enqueue is enabled whenever a
file remains, whatever the current queue length (it never blocks on a
"full" queue) — and the only bound on the queue length in a run of `n`
matching files is `n` itself. -/
theorem pipeline_queue_bounded_only_by_file_count (n : Nat) :
    (∀ p q d, PipeStep ⟨p + 1, q, d⟩ ⟨p, q + 1, d⟩) ∧
    (∀ s : PipeState, PipeReachable (pipeInit n) s → s.queued ≤ n) := by
  constructor
  · intro p q d
    exact PipeStep.produce p q d
  · intro s hs
    have hinv : ∀ t : PipeState, PipeReachable (pipeInit n) t →
        t.pending + t.queued + t.processed = n := by
      intro t ht
      induction ht with
      | refl => simp [pipeInit]
      | step hr hstep ih =>
        cases hstep with
        | produce p q d => simp at ih ⊢; omega
        | consume p q d => simp at ih ⊢; omega
    have := hinv s hs
    omega

/-- Witness: after one produce step of a two-file run, one item is queued
— within the file-count bound. -/
theorem pipeline_queue_bounded_only_by_file_count_witness :
    (⟨1, 1, 0⟩ : PipeState).queued ≤ 2 :=
  (pipeline_queue_bounded_only_by_file_count 2).2 ⟨1, 1, 0⟩
    (PipeReachable.step PipeReachable.refl (PipeStep.produce 1 0 0))

end LomVie
